import Mathlib

/-!
Verification development for the KopifilesNAS media-ingestion pipeline.

Shallow embedding of the Python sources:
  copy_process.py    — CopyProcess.copy_files (the copy engine)
  file_processor.py  — FileProcessor (metadata extraction, geo resolution, cache)
  location_history.py — LocationHistory (archive index, nearest-timestamp lookup)
  cli.py             — _classify_flash, CopyState.start (job controller)

Modelling conventions:
  * Paths are plain strings; os.path.join is rendered with the "/" separator.
  * Timestamps (epoch seconds) are Int; datetime values are reduced to the
    epoch-second Int they compare by; calendar fields of
    datetime.fromtimestamp are carried as an oracle field (Date), since the
    claims never depend on the epoch-to-calendar conversion itself.
  * Coordinates are an opaque pair; none of the verified claims computes with
    the float values, only with equality of resolved values and cache keys.
  * External effects (EXIF reads, sidecar reads, the offline/online geocoders,
    the filesystem) are oracles passed in as explicit data, so that every
    function is executable and every branch of the source control flow is
    preserved.
-/

/-- Calendar fields of a Python datetime (year, month, day). -/
structure Date where
  year : Nat
  month : Nat
  day : Nat
deriving DecidableEq, Repr

/-- A geographic coordinate (latitude, longitude).  Opaque for the claims:
no arithmetic on the components is ever needed, only equality and the
string cache key. -/
structure Coord where
  lat : Int
  lon : Int
deriving DecidableEq, Repr

/-- os.path.join rendered for the POSIX separator: join of a directory and a
relative component. -/
def pjoin (a b : String) : String := a ++ "/" ++ b

/-- The extension part of os.path.splitext(name) for a path-free name:
everything from the last dot on, unless every character before that dot is
itself a dot (so ".srt" as a whole file name has no extension). -/
def splitextExt (name : String) : String :=
  let cs := name.data
  match ((List.range cs.length).filter (fun i => cs.getD i ' ' = '.')).getLast? with
  | none => ""
  | some i => if (cs.take i).any (fun c => c ≠ '.') then String.mk (cs.drop i) else ""

/-- The stem part of os.path.splitext(name): the name with `splitextExt name`
removed from the end. -/
def splitextStem (name : String) : String :=
  let cs := name.data
  match ((List.range cs.length).filter (fun i => cs.getD i ' ' = '.')).getLast? with
  | none => name
  | some i => if (cs.take i).any (fun c => c ≠ '.') then String.mk (cs.take i) else name

/-- os.path.basename for "/"-separated paths: the part after the last
separator. -/
def basename (p : String) : String :=
  String.mk ((p.data.reverse.takeWhile (fun c => c ≠ '/')).reverse)

/-- Python str.lower() for the ASCII extension strings this code lowers
(rendered characterwise; String.toLower itself does not evaluate in the
kernel). -/
def lowerStr (s : String) : String := String.mk (s.data.map Char.toLower)

/-- `os.path.splitext(fname)[1].lower()` as used by both the engine and the
processor. -/
def extOf (fname : String) : String := lowerStr (splitextExt fname)

/-- Python `f"{n:02d}"` for a natural number. -/
def pad2 (n : Nat) : String := if n < 10 then "0" ++ toString n else toString n

/-- copy_process.DEFAULT_PHOTO_EXT. -/
def DEFAULT_PHOTO_EXT : List String := [".jpg", ".jpeg", ".png", ".gif", ".bmp", ".tiff"]

/-- copy_process.DEFAULT_VIDEO_EXT. -/
def DEFAULT_VIDEO_EXT : List String := [".mp4", ".avi", ".mov", ".mkv"]

/-- file_processor.PHOTO_EXT. -/
def PHOTO_EXT : List String := [".jpg", ".jpeg", ".png", ".gif", ".bmp", ".tiff"]

/-- file_processor.VIDEO_EXT (locally includes ".srt"). -/
def VIDEO_EXT : List String := [".mp4", ".avi", ".mov", ".mkv", ".srt"]

/-- The cache key `f"{coords[0]},{coords[1]}"` (decimal rendering of the
components abstracted to the opaque integer pair). -/
def keyOf (c : Coord) : String := toString c.lat ++ "," ++ toString c.lon

/-! ## location_history.py — LocationHistory -/

namespace LocationHistory

/-- Absolute time difference `abs(dt - target)` between an archive point's
timestamp and the query. -/
def tdiff (target : Int) (p : Int × Coord) : Nat := (p.1 - target).natAbs

/-- One iteration of the loop body of get_city_for_timestamp: keep the
running minimum `(mind, best)`, replacing it only on a strictly smaller
difference (`diff < mind`).  The Python initial value is
`best, mind = None, timedelta.max`; it is rendered as `none`, which is
equivalent because every concrete difference is below timedelta.max. -/
def nearestStep (target : Int) (acc : Option (Nat × Coord)) (p : Int × Coord) :
    Option (Nat × Coord) :=
  match acc with
  | none => some (tdiff target p, p.2)
  | some (mind, best) =>
      if tdiff target p < mind then some (tdiff target p, p.2) else some (mind, best)

/-- The nearest-point selection loop of
LocationHistory.get_city_for_timestamp: the coordinate of the point whose
timestamp has minimal absolute difference to the target, first-encountered
point winning ties; `none` for an empty list. -/
def nearestCoord (target : Int) (pts : List (Int × Coord)) : Option Coord :=
  (pts.foldl (nearestStep target) none).map (fun a => a.2)

/-- LocationHistory.get_city_for_timestamp(ts, pts): resolve the nearest
point's coordinate to a city (via LocationHistory.get_city_from_coordinates,
abstracted as `resolve`), or the unknown-city sentinel when no point exists.
(`if best` on a 2-tuple in Python is the None test: a nonempty tuple is
always truthy.) -/
def get_city_for_timestamp (resolve : Coord → String) (ts : Int)
    (pts : List (Int × Coord)) : String :=
  match nearestCoord ts pts with
  | some best => resolve best
  | none => "Неизвестный город"

/-- The three observable states of the persistent geocache store
(geocache.json): absent, present but unreadable or malformed (json.load
raises), or present and well-formed with contents `d`. -/
inductive CacheFileState where
  | absent
  | malformed
  | wellFormed (d : List (String × String))
deriving DecidableEq

/-- LocationHistory._load_cache: `if os.path.exists: return json.load(...)`
with no exception handler — a malformed store propagates the json error;
an absent store yields the empty dict. -/
def load_cache : CacheFileState → Except String (List (String × String))
  | .absent => .ok []
  | .malformed => .error "json decode error"
  | .wellFormed d => .ok d

end LocationHistory

namespace FileProcessor

/-- FileProcessor._load_cache: textually the same unguarded
`if os.path.exists: json.load` as LocationHistory._load_cache. -/
def load_cache : LocationHistory.CacheFileState → Except String (List (String × String))
  | .absent => .ok []
  | .malformed => .error "json decode error"
  | .wellFormed d => .ok d

/-- The part of FileProcessor.__init__ that can fail: it runs
`self.location_cache = self._load_cache()` with no handler, so construction
succeeds exactly when the cache load does. -/
def construct (s : LocationHistory.CacheFileState) :
    Except String (List (String × String)) := load_cache s

end FileProcessor

/-- The part of LocationHistory.__init__ that can fail: it runs
`self.cache = self._load_cache()` with no handler. -/
def LocationHistory.construct (s : LocationHistory.CacheFileState) :
    Except String (List (String × String)) := LocationHistory.load_cache s

/-! ## file_processor.py — FileProcessor.get_city_from_coordinates -/

namespace FileProcessor

/-- Python dict lookup on the in-memory location cache. -/
def lookup (d : List (String × String)) (k : String) : Option String :=
  (d.find? (fun kv => kv.1 = k)).map (fun kv => kv.2)

/-- Python dict assignment `d[k] = v`: replace an existing binding, else
append. -/
def insertKV (d : List (String × String)) (k v : String) : List (String × String) :=
  if (d.find? (fun kv => kv.1 = k)).isSome then
    d.map (fun kv => if kv.1 = k then (k, v) else kv)
  else d ++ [(k, v)]

/-- The mutable state touched by get_city_from_coordinates: the in-memory
cache plus a count of save_cache invocations (each one is a full rewrite of
geocache.json). -/
structure GeoSt where
  cache : List (String × String)
  saves : Nat
deriving DecidableEq, Repr

/-- A geocoding tier invocation, recorded for the claims about which tiers
run. -/
inductive Tier where
  | offline
  | online
deriving DecidableEq, Repr

/-- FileProcessor.get_city_from_coordinates.

`offline` is the outcome of `rg.search(coords, mode=1)[0].get("name")`
(`none` covers both a raised exception — swallowed — and a missing name;
`some ""` is a present-but-falsy name, since the source tests `if name:`).
`online` likewise abstracts `self.reverse(coords)` down to the
city/town/village value the source extracts (`none` for a failed or empty
lookup, again swallowed; the source tests `if city:`).

Returns the city, the updated state, and the list of geocoder tiers that
were actually invoked. -/
def get_city_from_coordinates (offline online : Option String)
    (st : GeoSt) (coords : Coord) : String × GeoSt × List Tier :=
  let key := keyOf coords
  match lookup st.cache key with
  | some city => (city, st, [])
  | none =>
    let afterOffline : Option (String × GeoSt × List Tier) :=
      match offline with
      | some name =>
        if name ≠ "" then
          some (name, ⟨insertKV st.cache key name, st.saves + 1⟩, [Tier.offline])
        else none
      | none => none
    match afterOffline with
    | some r => r
    | none =>
      match online with
      | some city =>
        if city ≠ "" then
          (city, ⟨insertKV st.cache key city, st.saves + 1⟩, [Tier.offline, Tier.online])
        else ("Неизвестный город", st, [Tier.offline, Tier.online])
      | none => ("Неизвестный город", st, [Tier.offline, Tier.online])

end FileProcessor

/-! ## file_processor.py — FileProcessor.process_file -/

/-- The per-file facts process_file reads from the outside world:
file stat, EXIF, and the companion sidecar.  `mtimeDate` carries the
calendar fields of `datetime.fromtimestamp(stat.st_mtime)`; `exifDT` is
`_exif_datetime(exif).timestamp()` when an EXIF datetime tag parsed;
`exifCoords` is the result of `get_coordinates(get_gps_info(exif))`
(`none` also covers the near-zero 1e-4 artifact rejection); `srtExists`
and `srtCoords` describe the sidecar file named by the source
(`file_path` itself for a standalone .srt, else the companion). -/
structure FileMeta where
  mtime : Int
  mtimeDate : Date
  exifDT : Option Int
  exifCoords : Option Coord
  srtExists : Bool
  srtCoords : Option Coord
deriving DecidableEq, Repr

/-- The oracles FileProcessor.process_file resolves through:
`cityFromCoords` is FileProcessor.get_city_from_coordinates (its stateful
tier structure is modelled separately above; process_file only consumes the
returned city), `monthPts` is _get_month_hist, `archResolve` is the
LocationHistory.get_city_from_coordinates used inside
get_city_for_timestamp, and `globalPts` is LocationHistory._build_global's
point list (get_city_global_for_timestamp = get_city_for_timestamp over
it). -/
structure GeoEnv where
  cityFromCoords : Coord → String
  monthPts : Nat → Nat → List (Int × Coord)
  archResolve : Coord → String
  globalPts : List (Int × Coord)

/-- The two shapes process_file can return: the filtered-extension branch
returns the bare 2-tuple `(file_dt, "")`; every other path returns the
declared 3-tuple `(file_dt, city, location_found)`. -/
inductive ProcOut where
  | pair (dt : Date)
  | full (dt : Date) (city : String) (found : Bool)
deriving DecidableEq, Repr

namespace FileProcessor

/-- FileProcessor.process_file(file_path, use_archive, allowed_formats).

The writes to `self.last_known_city` (a trailing memo never read on any
path relevant to the return value) are not represented. -/
def process_file (env : GeoEnv) (fm : FileMeta) (file_path : String)
    (use_archive : Bool) (allowed_formats : List String) : ProcOut :=
  let file_name := basename file_path
  let ext := extOf file_name
  let file_dt := fm.mtimeDate
  if allowed_formats ≠ [] ∧ ext ∉ allowed_formats ∧ ext ∉ [".srt"] then
    ProcOut.pair file_dt
  else
    let r : Int × String × Bool :=
      if ext ∈ PHOTO_EXT then
        let timestamp := match fm.exifDT with
          | some t => t
          | none => fm.mtime
        match fm.exifCoords with
        | some coords =>
          let city := env.cityFromCoords coords
          if city = "Неизвестный город" ∧ use_archive then
            let pts := env.monthPts file_dt.year file_dt.month
            (timestamp, LocationHistory.get_city_for_timestamp env.archResolve timestamp pts,
             true)
          else (timestamp, city, true)
        | none =>
          if use_archive then
            let pts := env.monthPts file_dt.year file_dt.month
            (timestamp, LocationHistory.get_city_for_timestamp env.archResolve timestamp pts,
             true)
          else (timestamp, "Прочие", false)
      else if ext ∈ VIDEO_EXT then
        let cf : String × Bool :=
          if fm.srtExists then
            match fm.srtCoords with
            | some coords => (env.cityFromCoords coords, true)
            | none => ("Прочие", false)
          else ("Прочие", false)
        if cf.1 = "Прочие" ∧ use_archive then
          let pts := env.monthPts file_dt.year file_dt.month
          (fm.mtime, LocationHistory.get_city_for_timestamp env.archResolve fm.mtime pts,
           true)
        else (fm.mtime, cf.1, cf.2)
      else (fm.mtime, "Прочие", false)
    let timestamp := r.1
    let city := r.2.1
    let location_found := r.2.2
    let city :=
      if city ∈ ["Неизвестный город", ""] then
        let city_global :=
          LocationHistory.get_city_for_timestamp env.archResolve timestamp env.globalPts
        if city_global ∉ ["", "Неизвестный город"] then city_global else city
      else city
    ProcOut.full file_dt city location_found

end FileProcessor

/-! ## cli.py — _classify_flash and CopyState -/

/-- cli._classify_flash(image_files, video_files, has_dji_prefix, has_lrf,
has_srt, camera_detected).  (`has_dji` renders the source's brand-prefix
flag, whose Python name ends in "prefix".) -/
def classify_flash (image_files video_files : Nat)
    (has_dji has_lrf has_srt camera_detected : Bool) : String :=
  if has_lrf then "Pocket"
  else if has_dji && has_srt then "Drone"
  else if camera_detected then "Foto"
  else if image_files > 0 && video_files = 0 then "Foto"
  else if video_files > 0 && image_files = 0 then "Drone"
  else if image_files > 0 && video_files > 0 then "Foto"
  else "Foto"

/-- One record of the cli module's global `_events` list (shape of
_append_event's dict). -/
structure EventRec where
  ts : String
  kind : String
  src : String
  dest : Option String
  error : Option String
deriving DecidableEq, Repr

/-- The per-run summary dict built by CopyProcess.copy_files. -/
structure Summary where
  processed : Nat
  copied : Nat
  skipped : Nat
  errors : Nat
  stopped : Bool
deriving DecidableEq, Repr

/-- The fields of cli.CopyState guarded by its lock.  The thread and
threading.Event objects are reduced to presence flags (`has_thread`,
`has_stop_event`) plus, for the stop event, whether it has been set
(`stop_event_set`): the claims only concern whether start() touches them. -/
structure CopyStateData where
  running : Bool
  last_started : Option String
  last_finished : Option String
  last_error : Option String
  last_result : Option Summary
  last_mode : Option String
  current_total : Option Nat
  current_copied : Option Nat
  stop_requested_flag : Bool
  has_stop_event : Bool
  stop_event_set : Bool
  has_thread : Bool
deriving DecidableEq, Repr

namespace CopyState

/-- cli.CopyState.start(config, mode, allowed_formats_override), together
with the module-global event log it resets.

`now` stands for `datetime.now().astimezone().isoformat(...)`;
`counted_total` is the best-effort `_count_source_files` candidate count
(already `none` when the count was skipped or raised).  The spawned worker
itself is outside this model; `thread.start()` is rendered as the
`has_thread` flag it leaves behind. -/
def start (st : CopyStateData) (events : List EventRec) (now : String)
    (mode : String) (counted_total : Option Nat) :
    Bool × CopyStateData × List EventRec :=
  if st.running then
    (false, { st with last_error := some "Копирование уже выполняется." }, events)
  else
    (true,
     { running := true
       last_started := some now
       last_finished := none
       last_error := none
       last_result := none
       last_mode := some mode
       current_total := counted_total
       current_copied := some 0
       stop_requested_flag := false
       has_stop_event := true
       stop_event_set := false
       has_thread := true },
     [])

end CopyState

/-! ## copy_process.py — CopyProcess.copy_files -/

namespace CopyProcess

/-- A progress_callback invocation (the wall-clock timestamp argument,
`now_local_iso()`, is not represented).  The stopped event's source
argument is the literal empty string in the source and carries no data. -/
inductive PEvent where
  | copied (src dest : String)
  | skipped (src dest : String)
  | stopped
  | error (src msg : String)
deriving DecidableEq, Repr

/-- One shutil.copy2 invocation performed by the engine, instrumented with
whether the destination path already existed at that moment and whether
this was the companion-sidecar copy. -/
structure CopyAct where
  src : String
  dest : String
  existedBefore : Bool
  sidecar : Bool
deriving DecidableEq, Repr

/-- What a processor.process_file call comes back as, seen from the
engine's three-name unpacking site: a normal 3-tuple, the bare 2-tuple of
the filtered branch (whose unpacking raises ValueError), or an exception
raised inside process_file. -/
inductive ProcReturn where
  | ok (dt : Date) (city : String) (found : Bool)
  | pair (dt : Date)
  | err (msg : String)
deriving DecidableEq, Repr

/-- The engine's run configuration: destination root, archive switch, the
resolved allowed-extension list, the optional stop event (its `is_set()`
answers indexed by how many times it has been polled, since another thread
may set it mid-run), and the processor. -/
structure EngineCfg where
  destDir : String
  useArchive : Bool
  allowed : List String
  stopEvent : Option (Nat → Bool)
  processor : String → ProcReturn

/-- The evolving run state: the summary counters, the poll counter for the
stop event, the set of existing filesystem paths (sources, pre-existing
destinations, and destinations created so far), and the instrumentation
streams (events emitted, process_file calls as (root, fname), copies
performed). -/
structure EngineSt where
  processed : Nat
  copied : Nat
  skipped : Nat
  errors : Nat
  stopped : Bool
  checkIdx : Nat
  fs : List String
  events : List PEvent
  calls : List (String × String)
  copies : List CopyAct
deriving DecidableEq, Repr

/-- The engine's extension filter (copy_process.py line 69):
`if allowed and ext not in allowed and ext != '.srt': continue`. -/
def skipFilter (allowed : List String) (ext : String) : Bool :=
  allowed ≠ [] ∧ ext ∉ allowed ∧ ext ≠ ".srt"

/-- The derived destination folder for one file (copy_process.py lines
83-96): `{destDir}/{year}/{year-month-day}[-city][/Videos]`. -/
def destFolderOf (cfg : EngineCfg) (ext : String) (file_dt : Date) (city : String)
    (location_found : Bool) : String :=
  let dateStr := toString file_dt.year ++ "-" ++ pad2 file_dt.month ++ "-"
    ++ pad2 file_dt.day
  let base_folder :=
    if location_found || cfg.useArchive then
      dateStr ++ "-" ++ (if city = "" then "Прочие" else city)
    else dateStr
  let dest_base := pjoin (pjoin cfg.destDir (toString file_dt.year)) base_folder
  if ext ∈ DEFAULT_VIDEO_EXT then pjoin dest_base "Videos" else dest_base

/-- The guarded primary copy (copy_process.py lines 101-110):
`if not os.path.exists(dest_path): copy2` else count a skip. -/
def copyStep (src_path dest_path : String) (st : EngineSt) : EngineSt :=
  if dest_path ∉ st.fs then
    { st with
      copied := st.copied + 1
      fs := st.fs ++ [dest_path]
      events := st.events ++ [PEvent.copied src_path dest_path]
      copies := st.copies ++ [⟨src_path, dest_path, false, false⟩] }
  else
    { st with
      skipped := st.skipped + 1
      events := st.events ++ [PEvent.skipped src_path dest_path] }

/-- The unguarded companion-sidecar copy for a video (copy_process.py
lines 112-121): if the source sidecar exists it is copy2-ed into the
destination folder with no destination-existence check, and the copied
event carries the destination FOLDER.  srt_src =
os.path.splitext(src_path)[0] + ".srt"; for a separator-free fname this is
root/stem(fname).srt, and os.path.basename(srt_src) is stem(fname).srt. -/
def sidecarStep (root fname dest_folder : String) (st : EngineSt) : EngineSt :=
  let srt_name := splitextStem fname ++ ".srt"
  let srt_src := pjoin root srt_name
  if srt_src ∈ st.fs then
    let dest_srt := pjoin dest_folder srt_name
    { st with
      fs := if dest_srt ∈ st.fs then st.fs else st.fs ++ [dest_srt]
      events := st.events ++ [PEvent.copied srt_src dest_folder]
      copies := st.copies ++ [⟨srt_src, dest_srt, decide (dest_srt ∈ st.fs), true⟩] }
  else st

/-- The successful-processing tail of the loop body: derive the
destination, run the guarded primary copy, then the sidecar copy when the
file is a video. -/
def okStep (cfg : EngineCfg) (root fname ext : String) (file_dt : Date)
    (city : String) (location_found : Bool) (st : EngineSt) : EngineSt :=
  let dest_folder := destFolderOf cfg ext file_dt city location_found
  let st1 := copyStep (pjoin root fname) (pjoin dest_folder fname) st
  if ext ∈ DEFAULT_VIDEO_EXT then sidecarStep root fname dest_folder st1 else st1

/-- The loop body after the stop check, for one file `fname` under
directory `root`: filter, count, process, then the per-file copy work;
a raised exception — including the ValueError from unpacking the filtered
branch's 2-tuple — is caught and counted (copy_process.py lines 123-126).
os.makedirs only creates directories and is not represented in the path
set. -/
def body (cfg : EngineCfg) (root fname : String) (st : EngineSt) : EngineSt :=
  let ext := extOf fname
  if skipFilter cfg.allowed ext then st
  else
    let src_path := pjoin root fname
    let st := { st with
      processed := st.processed + 1
      calls := st.calls ++ [(root, fname)] }
    match cfg.processor src_path with
    | ProcReturn.err m =>
      { st with errors := st.errors + 1, events := st.events ++ [PEvent.error src_path m] }
    | ProcReturn.pair _ =>
      { st with errors := st.errors + 1,
                events := st.events ++
                  [PEvent.error src_path "ValueError: not enough values to unpack"] }
    | ProcReturn.ok file_dt city location_found =>
      okStep cfg root fname ext file_dt city location_found st

/-- One full iteration of the inner `for fname in files` loop: poll the
stop event first (when present), break out of the walk when it is set,
otherwise run the body.  The second component is the `break` flag. -/
def fileStep (cfg : EngineCfg) (root fname : String) (st : EngineSt) :
    EngineSt × Bool :=
  match cfg.stopEvent with
  | some sig =>
    if sig st.checkIdx then
      ({ st with
           stopped := true
           checkIdx := st.checkIdx + 1
           events := st.events ++ [PEvent.stopped] }, true)
    else body cfg root fname { st with checkIdx := st.checkIdx + 1 } |> (·, false)
  | none => (body cfg root fname st, false)

/-- The inner loop over one directory's file list, stopping at a break. -/
def runFiles (cfg : EngineCfg) (root : String) :
    List String → EngineSt → EngineSt × Bool
  | [], st => (st, false)
  | fname :: rest, st =>
    let r := fileStep cfg root fname st
    if r.2 then (r.1, true) else runFiles cfg root rest r.1

/-- The outer loop over the os.walk result (`if stop_requested: break`). -/
def runWalk (cfg : EngineCfg) :
    List (String × List String) → EngineSt → EngineSt
  | [], st => st
  | (root, files) :: rest, st =>
    let r := runFiles cfg root files st
    if r.2 then r.1 else runWalk cfg rest r.1

/-- Resolution of the allowed-extension list at the top of copy_files: the
default photo+video lists when allowed_formats is None, else the lowered
caller list. -/
def resolveAllowed : Option (List String) → List String
  | none => DEFAULT_PHOTO_EXT ++ DEFAULT_VIDEO_EXT
  | some l => l.map lowerStr

/-- The initial run state over a starting path set `fs0`. -/
def initSt (fs0 : List String) : EngineSt :=
  { processed := 0, copied := 0, skipped := 0, errors := 0, stopped := false
    checkIdx := 0, fs := fs0, events := [], calls := [], copies := [] }

/-- CopyProcess.copy_files: the whole run over a given os.walk listing and
starting filesystem.  `flush_every` and the disabled log file play no part
in the source's control flow and are omitted; progress_callback is taken
as present (absent merely drops the event stream). -/
def copy_files (destDir : String) (useArchive : Bool)
    (allowed_formats : Option (List String)) (stopEvent : Option (Nat → Bool))
    (processor : String → ProcReturn)
    (walk : List (String × List String)) (fs0 : List String) : EngineSt :=
  runWalk ⟨destDir, useArchive, resolveAllowed allowed_formats, stopEvent, processor⟩
    walk (initSt fs0)

/-- The composition the deployed system runs: the engine's processor is
FileProcessor.process_file itself over per-path file facts `fmOf`, with
the engine's own use_archive and allowed list (copy_process.py lines
77-81), its 3-tuple result arriving at the engine's unpacking site. -/
def procOf (env : GeoEnv) (fmOf : String → FileMeta) (use_archive : Bool)
    (allowed : List String) : String → ProcReturn :=
  fun path =>
    match FileProcessor.process_file env (fmOf path) path use_archive allowed with
    | ProcOut.pair dt => ProcReturn.pair dt
    | ProcOut.full dt city found => ProcReturn.ok dt city found

end CopyProcess

/-! ## Theorems -/

/-- Claim C4 (counterexample): constructing the resolver does NOT succeed
for every state of the persistent geo-cache store — with the store present
but malformed, the unguarded json.load raises out of both constructors. -/
theorem malformedCacheFailsConstruction :
    (FileProcessor.construct LocationHistory.CacheFileState.malformed).isOk = false ∧
    (LocationHistory.construct LocationHistory.CacheFileState.malformed).isOk = false :=
  ⟨rfl, rfl⟩

/-- Claim C4 (amended): an absent cache store is non-fatal and yields the
empty cache, and a well-formed store loads; but a present-yet-malformed
store makes construction fail — the load failure is not caught. -/
theorem cacheLoadBehavior (d : List (String × String)) :
    FileProcessor.construct LocationHistory.CacheFileState.absent = .ok [] ∧
    FileProcessor.construct (LocationHistory.CacheFileState.wellFormed d) = .ok d ∧
    LocationHistory.construct LocationHistory.CacheFileState.absent = .ok [] ∧
    LocationHistory.construct (LocationHistory.CacheFileState.wellFormed d) = .ok d ∧
    (FileProcessor.construct LocationHistory.CacheFileState.malformed).isOk = false ∧
    (LocationHistory.construct LocationHistory.CacheFileState.malformed).isOk = false :=
  ⟨rfl, rfl, rfl, rfl, rfl, rfl⟩

/-- Claim C9: a start() while a job is already running fails atomically —
it returns false, sets the human-readable last-error, and leaves every
other field of the controller state and the event log unchanged. -/
theorem startWhileRunningAtomic (st : CopyStateData) (events : List EventRec)
    (now mode : String) (counted_total : Option Nat) (h : st.running = true) :
    CopyState.start st events now mode counted_total =
      (false, { st with last_error := some "Копирование уже выполняется." }, events) := by
  simp [CopyState.start, h]

/-- Claim C9 witness: the theorem applied to a concrete running state. -/
theorem startWhileRunningAtomic_witness :
    CopyState.start
      ⟨true, some "s", none, none, none, some "manual", some 7, some 3, false, true, false, true⟩
      [⟨"t", "copied", "a", some "b", none⟩] "now" "auto" (some 9) =
      (false,
       ⟨true, some "s", none, some "Копирование уже выполняется.", none, some "manual",
        some 7, some 3, false, true, false, true⟩,
       [⟨"t", "copied", "a", some "b", none⟩]) :=
  startWhileRunningAtomic _ _ _ _ _ rfl

/-- Claim C7: the flash classifier applies the precedence table
first-match-wins — .lrf present gives "Pocket" regardless of everything
else; else brand-prefixed names together with a sidecar give "Drone"; else
a detected camera identity gives "Foto"; else images-without-videos gives
"Foto", videos-without-images gives "Drone", and every remaining case
(both present, or nothing at all) gives "Foto". -/
theorem classifyFlashPrecedence (img vid : Nat) (dji lrf srt cam : Bool) :
    (lrf = true → classify_flash img vid dji lrf srt cam = "Pocket") ∧
    (lrf = false → dji = true → srt = true →
      classify_flash img vid dji lrf srt cam = "Drone") ∧
    (lrf = false → ¬(dji = true ∧ srt = true) → cam = true →
      classify_flash img vid dji lrf srt cam = "Foto") ∧
    (lrf = false → ¬(dji = true ∧ srt = true) → cam = false → 0 < img → vid = 0 →
      classify_flash img vid dji lrf srt cam = "Foto") ∧
    (lrf = false → ¬(dji = true ∧ srt = true) → cam = false → 0 < vid → img = 0 →
      classify_flash img vid dji lrf srt cam = "Drone") ∧
    (lrf = false → ¬(dji = true ∧ srt = true) → cam = false →
      ¬(0 < img ∧ vid = 0) → ¬(0 < vid ∧ img = 0) →
      classify_flash img vid dji lrf srt cam = "Foto") := by
  refine ⟨fun h1 => ?_, fun h1 h2 h3 => ?_, fun h1 h2 h3 => ?_,
    fun h1 h2 h3 h4 h5 => ?_, fun h1 h2 h3 h4 h5 => ?_, fun h1 h2 h3 h4 h5 => ?_⟩
  · subst h1; simp [classify_flash]
  · subst h1 h2 h3; simp [classify_flash]
  · subst h1 h3; cases dji <;> cases srt <;> simp_all [classify_flash]
  · subst h1 h3 h5; cases dji <;> cases srt <;> simp_all [classify_flash]
  · subst h1 h3 h5; cases dji <;> cases srt <;> simp_all [classify_flash]
  · subst h1 h3; cases dji <;> cases srt <;> simp_all [classify_flash]

/-- Claim C7 witness: the spec's own classification-table rows — 5 photos
and nothing else is "Foto"; 3 videos with brand-prefixed names and a
sidecar is "Drone"; an .lrf file present is "Pocket" regardless of other
counts. -/
theorem classifyFlashPrecedence_witness :
    classify_flash 5 0 false false false false = "Foto" ∧
    classify_flash 0 3 true false true false = "Drone" ∧
    classify_flash 5 3 true true true true = "Pocket" :=
  ⟨(classifyFlashPrecedence 5 0 false false false false).2.2.2.1 rfl
      (by simp) rfl (by omega) rfl,
   (classifyFlashPrecedence 0 3 true false true false).2.1 rfl rfl rfl,
   (classifyFlashPrecedence 5 3 true true true true).1 rfl⟩

/-- Claim C1 (counterexample): the engine does overwrite an existing
destination file — a video's companion sidecar is copied with no existence
check, so with the destination sidecar already present the run still
performs that copy (and emits a copied event for it) instead of skipping. -/
theorem sidecarCopyOverwrites :
    (CopyProcess.CopyAct.mk "s/v.srt" "d/2024/2024-03-05-Paris/Videos/v.srt" true true) ∈
      (CopyProcess.copy_files "d" false none none
        (fun _ => CopyProcess.ProcReturn.ok ⟨2024, 3, 5⟩ "Paris" true)
        [("s", ["v.mp4"])]
        ["s/v.mp4", "s/v.srt", "d/2024/2024-03-05-Paris/Videos/v.srt"]).copies := by
  decide

/-- Claim C2 (counterexample): a file whose extension is the video-sidecar
extension IS processed as an independent candidate — a source tree holding
only "a.srt" yields processed = 1 and a process_file invocation on that
very file. -/
theorem srtProcessedStandalone :
    (CopyProcess.copy_files "d" false none none
        (fun _ => CopyProcess.ProcReturn.ok ⟨2024, 1, 1⟩ "" false)
        [("s", ["a.srt"])] ["s/a.srt"]).processed = 1 ∧
    ("s", "a.srt") ∈
      (CopyProcess.copy_files "d" false none none
        (fun _ => CopyProcess.ProcReturn.ok ⟨2024, 1, 1⟩ "" false)
        [("s", ["a.srt"])] ["s/a.srt"]).calls :=
  ⟨rfl, by decide⟩

/-- Claim C3 (counterexample): the confirmed-location flag can be true even
though the city was supplied only by the process-wide global fallback — a
photo with no EXIF GPS, archive mode on, and an empty month archive gets
its city from the global fallback yet returns found = true; with the
global point list empty the same file still returns found = true next to
the unknown-city sentinel, showing no coordinate or successful archive
resolution was ever involved. -/
theorem foundTrueWithGlobalFallbackCity :
    FileProcessor.process_file
      ⟨fun _ => "X", fun _ _ => [], fun _ => "Paris", [((0 : Int), ⟨1, 2⟩)]⟩
      ⟨0, ⟨2024, 1, 1⟩, none, none, false, none⟩ "p/a.jpg" true [] =
      ProcOut.full ⟨2024, 1, 1⟩ "Paris" true ∧
    FileProcessor.process_file
      ⟨fun _ => "X", fun _ _ => [], fun _ => "Paris", []⟩
      ⟨0, ⟨2024, 1, 1⟩, none, none, false, none⟩ "p/a.jpg" true [] =
      ProcOut.full ⟨2024, 1, 1⟩ "Неизвестный город" true :=
  ⟨rfl, rfl⟩

namespace LocationHistory

/-- Spec of the running-minimum fold once the accumulator is populated:
either the accumulator survives (everything in the rest is no nearer), or
the first element strictly nearer than everything before it (and no
farther than everything after) wins. -/
theorem foldl_nearestStep_some (target : Int) :
    ∀ (pts : List (Int × Coord)) (m : Nat) (b : Coord),
      (pts.foldl (nearestStep target) (some (m, b)) = some (m, b) ∧
        ∀ q ∈ pts, m ≤ tdiff target q) ∨
      (∃ l1 q l2, pts = l1 ++ q :: l2 ∧ tdiff target q < m ∧
        (∀ r ∈ l1, tdiff target q < tdiff target r) ∧
        (∀ r ∈ l2, tdiff target q ≤ tdiff target r) ∧
        pts.foldl (nearestStep target) (some (m, b)) = some (tdiff target q, q.2)) := by
  intro pts
  induction pts with
  | nil => intro m b; exact Or.inl ⟨rfl, by simp⟩
  | cons p rest ih =>
    intro m b
    by_cases hp : tdiff target p < m
    · have hstep : (p :: rest).foldl (nearestStep target) (some (m, b)) =
          rest.foldl (nearestStep target) (some (tdiff target p, p.2)) := by
        simp [List.foldl_cons, nearestStep, hp]
      rcases ih (tdiff target p) p.2 with ⟨heq, hall⟩ | ⟨l1, q, l2, hpts, hlt, hl1, hl2, heq⟩
      · exact Or.inr ⟨[], p, rest, by simp, hp, by simp, hall, by rw [hstep, heq]⟩
      · refine Or.inr ⟨p :: l1, q, l2, by rw [hpts, List.cons_append], lt_trans hlt hp, ?_, hl2,
          by rw [hstep, heq]⟩
        intro r hr
        rcases List.mem_cons.mp hr with h | h
        · exact h ▸ hlt
        · exact hl1 r h
    · have hm : m ≤ tdiff target p := Nat.le_of_not_lt hp
      have hstep : (p :: rest).foldl (nearestStep target) (some (m, b)) =
          rest.foldl (nearestStep target) (some (m, b)) := by
        simp [List.foldl_cons, nearestStep, hp]
      rcases ih m b with ⟨heq, hall⟩ | ⟨l1, q, l2, hpts, hlt, hl1, hl2, heq⟩
      · refine Or.inl ⟨by rw [hstep, heq], ?_⟩
        intro q hq
        rcases List.mem_cons.mp hq with h | h
        · exact h ▸ hm
        · exact hall q h
      · refine Or.inr ⟨p :: l1, q, l2, by rw [hpts, List.cons_append], hlt, ?_, hl2, by rw [hstep, heq]⟩
        intro r hr
        rcases List.mem_cons.mp hr with h | h
        · exact h ▸ lt_of_lt_of_le hlt hm
        · exact hl1 r h

end LocationHistory

/-- Claim C5: the nearest-timestamp lookup returns the unknown-city
sentinel on an empty point list, and on a nonempty list it selects the
coordinate of a point of minimum absolute time difference to the query,
every strictly-earlier point in the sequence lying strictly farther (the
first-encountered point wins ties) and resolves its coordinate to the
returned city. -/
theorem nearestTimestampSpec (resolve : Coord → String) (target : Int)
    (pts : List (Int × Coord)) :
    (pts = [] →
      LocationHistory.get_city_for_timestamp resolve target pts = "Неизвестный город") ∧
    (∀ p rest, pts = p :: rest →
      ∃ l1 q l2, pts = l1 ++ q :: l2 ∧
        LocationHistory.nearestCoord target pts = some q.2 ∧
        LocationHistory.get_city_for_timestamp resolve target pts = resolve q.2 ∧
        (∀ r ∈ l1, LocationHistory.tdiff target q < LocationHistory.tdiff target r) ∧
        (∀ r ∈ pts, LocationHistory.tdiff target q ≤ LocationHistory.tdiff target r)) := by
  constructor
  · intro h; subst h; rfl
  · intro p rest hpts
    subst hpts
    have hfold : (p :: rest).foldl (LocationHistory.nearestStep target) none =
        rest.foldl (LocationHistory.nearestStep target)
          (some (LocationHistory.tdiff target p, p.2)) := by
      simp [List.foldl_cons, LocationHistory.nearestStep]
    rcases LocationHistory.foldl_nearestStep_some target rest
        (LocationHistory.tdiff target p) p.2 with
        ⟨heq, hall⟩ | ⟨l1, q, l2, hr, hlt, hl1, hl2, heq⟩
    · refine ⟨[], p, rest, by simp, ?_, ?_, by simp, ?_⟩
      · simp [LocationHistory.nearestCoord, hfold, heq]
      · simp [LocationHistory.get_city_for_timestamp, LocationHistory.nearestCoord,
          hfold, heq]
      · intro r hr
        rcases List.mem_cons.mp hr with h | h
        · exact h ▸ le_refl _
        · exact hall r h
    · have hnc : LocationHistory.nearestCoord target (p :: rest) = some q.2 := by
        simp [LocationHistory.nearestCoord, hfold, heq]
      refine ⟨p :: l1, q, l2, by rw [hr, List.cons_append], hnc, ?_, ?_, ?_⟩
      · simp [LocationHistory.get_city_for_timestamp, hnc]
      · intro r hrr
        rcases List.mem_cons.mp hrr with h | h
        · exact h ▸ hlt
        · exact hl1 r h
      · intro r hrr
        rcases List.mem_cons.mp hrr with h | h
        · exact h ▸ le_of_lt hlt
        · rw [hr] at h
          rcases List.mem_append.mp h with h' | h'
          · exact le_of_lt (hl1 r h')
          · rcases List.mem_cons.mp h' with h'' | h''
            · exact h'' ▸ le_refl _
            · exact hl2 r h''

/-- Claim C5 witness: the spec's equidistant-tie instance — two points at
times 3 and 7 with a query at 5 are equidistant, and the earlier point
(time 3, the first encountered) is chosen. -/
theorem nearestTimestampSpec_witness :
    (∃ l1 q l2, [((3 : Int), Coord.mk 1 1), (7, Coord.mk 2 2)] = l1 ++ q :: l2 ∧
      LocationHistory.nearestCoord 5 [((3 : Int), Coord.mk 1 1), (7, Coord.mk 2 2)] =
        some q.2 ∧
      LocationHistory.get_city_for_timestamp (fun c => toString c.lat) 5
        [((3 : Int), Coord.mk 1 1), (7, Coord.mk 2 2)] = toString q.2.lat ∧
      (∀ r ∈ l1, LocationHistory.tdiff 5 q < LocationHistory.tdiff 5 r) ∧
      (∀ r ∈ [((3 : Int), Coord.mk 1 1), (7, Coord.mk 2 2)],
        LocationHistory.tdiff 5 q ≤ LocationHistory.tdiff 5 r)) ∧
    LocationHistory.nearestCoord 5 [((3 : Int), Coord.mk 1 1), (7, Coord.mk 2 2)] =
      some (Coord.mk 1 1) :=
  ⟨(nearestTimestampSpec (fun c => toString c.lat) 5 _).2 _ _ rfl, by decide⟩

/-- Claim C6: resolveByCoordinate walks the tiers in order — a cache hit
returns immediately with no geocoder invoked and no state change; a
successful offline result is stored in the cache (with an immediate
persist) and returned; otherwise a successful online result is stored and
returned with both tiers having run; and when both fail the unknown-city
sentinel is returned with the cache untouched, so a repeat query for the
same coordinate runs tiers 2–3 again. -/
theorem resolveByCoordinateTiers (offline online : Option String)
    (st : FileProcessor.GeoSt) (c : Coord) :
    (∀ city, FileProcessor.lookup st.cache (keyOf c) = some city →
      FileProcessor.get_city_from_coordinates offline online st c = (city, st, [])) ∧
    (FileProcessor.lookup st.cache (keyOf c) = none →
      ∀ n, offline = some n → n ≠ "" →
      FileProcessor.get_city_from_coordinates offline online st c =
        (n, ⟨FileProcessor.insertKV st.cache (keyOf c) n, st.saves + 1⟩,
         [FileProcessor.Tier.offline])) ∧
    (FileProcessor.lookup st.cache (keyOf c) = none →
      (offline = none ∨ offline = some "") →
      ∀ m, online = some m → m ≠ "" →
      FileProcessor.get_city_from_coordinates offline online st c =
        (m, ⟨FileProcessor.insertKV st.cache (keyOf c) m, st.saves + 1⟩,
         [FileProcessor.Tier.offline, FileProcessor.Tier.online])) ∧
    (FileProcessor.lookup st.cache (keyOf c) = none →
      (offline = none ∨ offline = some "") →
      (online = none ∨ online = some "") →
      FileProcessor.get_city_from_coordinates offline online st c =
        ("Неизвестный город", st,
         [FileProcessor.Tier.offline, FileProcessor.Tier.online]) ∧
      FileProcessor.get_city_from_coordinates offline online
        (FileProcessor.get_city_from_coordinates offline online st c).2.1 c =
        ("Неизвестный город", st,
         [FileProcessor.Tier.offline, FileProcessor.Tier.online])) := by
  refine ⟨?_, ?_, ?_, ?_⟩
  · intro city h
    simp [FileProcessor.get_city_from_coordinates, h]
  · intro h n ho hn
    subst ho
    simp [FileProcessor.get_city_from_coordinates, h, hn]
  · intro h ho m hon hm
    subst hon
    rcases ho with ho | ho <;> subst ho <;>
      simp [FileProcessor.get_city_from_coordinates, h, hm]
  · intro h ho hon
    have hres : FileProcessor.get_city_from_coordinates offline online st c =
        ("Неизвестный город", st,
         [FileProcessor.Tier.offline, FileProcessor.Tier.online]) := by
      rcases ho with ho | ho <;> rcases hon with hon | hon <;> subst ho <;> subst hon <;>
        simp [FileProcessor.get_city_from_coordinates, h]
    exact ⟨hres, by rw [hres]; exact hres⟩

/-- Claim C6 witness: the theorem's tiers exercised at concrete inputs —
a cache hit answers from the cache alone; with an empty cache and failing
geocoders the sentinel comes back, the state is untouched, and the
repeated query runs both tiers again. -/
theorem resolveByCoordinateTiers_witness :
    FileProcessor.get_city_from_coordinates (some "Lyon") none
      ⟨[("4,5", "Paris")], 0⟩ ⟨4, 5⟩ = ("Paris", ⟨[("4,5", "Paris")], 0⟩, []) ∧
    (FileProcessor.get_city_from_coordinates none none ⟨[], 0⟩ ⟨4, 5⟩ =
      ("Неизвестный город", ⟨[], 0⟩,
       [FileProcessor.Tier.offline, FileProcessor.Tier.online]) ∧
     FileProcessor.get_city_from_coordinates none none
       (FileProcessor.get_city_from_coordinates none none ⟨[], 0⟩ ⟨4, 5⟩).2.1 ⟨4, 5⟩ =
      ("Неизвестный город", ⟨[], 0⟩,
       [FileProcessor.Tier.offline, FileProcessor.Tier.online])) :=
  ⟨(resolveByCoordinateTiers (some "Lyon") none ⟨[("4,5", "Paris")], 0⟩ ⟨4, 5⟩).1
      "Paris" (by decide),
   (resolveByCoordinateTiers none none ⟨[], 0⟩ ⟨4, 5⟩).2.2.2 (by decide)
      (Or.inl rfl) (Or.inl rfl)⟩

/-- Claim C3 (amended): the confirmed-location flag returned by
process_file is true exactly when a coordinate was actually found (EXIF
GPS for a photo, sidecar coordinates for a video) OR the per-month archive
fallback branch ran (use_archive enabled), regardless of whether that
archive lookup actually succeeded; the global last-resort fallback itself
never sets the flag, but a failed archive attempt leaves it true even when
the city ends up supplied only by the global fallback. -/
theorem locationFoundCharacterization (env : GeoEnv) (fm : FileMeta) (path : String)
    (ua : Bool) (af : List String) (dt : Date) (city : String) (found : Bool) :
    FileProcessor.process_file env fm path ua af = ProcOut.full dt city found →
    found = (if extOf (basename path) ∈ PHOTO_EXT then fm.exifCoords.isSome || ua
             else if extOf (basename path) ∈ VIDEO_EXT then
               (fm.srtExists && fm.srtCoords.isSome) || ua
             else false) := by
  intro h
  simp only [FileProcessor.process_file] at h
  split at h
  · exact ProcOut.noConfusion h
  · rw [ProcOut.full.injEq] at h
    rw [← h.2.2]
    by_cases hphoto : extOf (basename path) ∈ PHOTO_EXT
    · simp only [if_pos hphoto]
      cases hc : fm.exifCoords with
      | none =>
        simp only [hc]
        by_cases hua : ua = true <;> simp [hua]
      | some coords =>
        simp only [hc]
        by_cases h2 : env.cityFromCoords coords = "Неизвестный город" ∧ ua = true <;>
          simp [h2]
    · by_cases hvideo : extOf (basename path) ∈ VIDEO_EXT
      · simp only [if_neg hphoto, if_pos hvideo]
        cases hs : fm.srtExists with
        | false =>
          by_cases hua : ua = true <;> simp [hs, hua]
        | true =>
          cases hc : fm.srtCoords with
          | none =>
            by_cases hua : ua = true <;> simp [hs, hc, hua]
          | some coords =>
            by_cases h2 : env.cityFromCoords coords = "Прочие" ∧ ua = true <;>
              simp [hs, hc, h2]
      · simp [if_neg hphoto, if_neg hvideo]

/-- Claim C3 (amended) witness: the characterization applied to the
concrete archive-failure run — no EXIF coordinates, archive on, so the
flag computes to true for a photo even though the month archive was
empty. -/
theorem locationFoundCharacterization_witness :
    (true : Bool) =
      (if extOf (basename "p/a.jpg") ∈ PHOTO_EXT then
        (Option.none (α := Coord)).isSome || true
       else if extOf (basename "p/a.jpg") ∈ VIDEO_EXT then
        ((false : Bool) && (Option.none (α := Coord)).isSome) || true
       else false) :=
  locationFoundCharacterization
    ⟨fun _ => "X", fun _ _ => [], fun _ => "Paris", [((0 : Int), ⟨1, 2⟩)]⟩
    ⟨0, ⟨2024, 1, 1⟩, none, none, false, none⟩ "p/a.jpg" true []
    ⟨2024, 1, 1⟩ "Paris" true rfl

namespace CopyProcess

/-- Any state property preserved by every fileStep outcome is preserved by
the inner file loop. -/
theorem runFiles_preserve (cfg : EngineCfg) (root : String) (P : EngineSt → Prop)
    (hstep : ∀ f st, P st → P (fileStep cfg root f st).1) :
    ∀ files st, P st → P (runFiles cfg root files st).1 := by
  intro files
  induction files with
  | nil => intro st h; exact h
  | cons f rest ih =>
    intro st h
    simp only [runFiles]
    split
    · exact hstep f st h
    · exact ih _ (hstep f st h)

/-- Any state property preserved by every fileStep outcome is preserved by
the whole walk. -/
theorem runWalk_preserve (cfg : EngineCfg) (P : EngineSt → Prop)
    (hstep : ∀ root f st, P st → P (fileStep cfg root f st).1) :
    ∀ walk st, P st → P (runWalk cfg walk st) := by
  intro walk
  induction walk with
  | nil => intro st h; exact h
  | cons d rest ih =>
    intro st h
    simp only [runWalk]
    split
    · exact runFiles_preserve cfg d.1 P (hstep d.1) d.2 st h
    · exact ih _ (runFiles_preserve cfg d.1 P (hstep d.1) d.2 st h)

/-- The guarded primary copy appends at most its own record, whose
existed-before flag is false by the very branch condition. -/
theorem copyStep_copies (src dest : String) (st : EngineSt) :
    (copyStep src dest st).copies = st.copies ∨
    (copyStep src dest st).copies = st.copies ++ [⟨src, dest, false, false⟩] := by
  unfold copyStep; split
  · exact Or.inr rfl
  · exact Or.inl rfl

/-- The sidecar copy appends at most one record, always tagged as a
sidecar record. -/
theorem sidecarStep_copies (root fname dest_folder : String) (st : EngineSt) :
    (sidecarStep root fname dest_folder st).copies = st.copies ∨
    ∃ rec : CopyAct, rec.sidecar = true ∧
      (sidecarStep root fname dest_folder st).copies = st.copies ++ [rec] := by
  simp only [sidecarStep]; split
  · exact Or.inr ⟨_, rfl, rfl⟩
  · exact Or.inl rfl

/-- The primary-copy invariant: every non-sidecar copy record was made
onto a destination that did not exist at copy time.  It is preserved by
every single engine step. -/
def PrimaryInv (st : EngineSt) : Prop :=
  ∀ a ∈ st.copies, a.sidecar = false → a.existedBefore = false

theorem copyStep_primaryInv (src dest : String) (st : EngineSt) (h : PrimaryInv st) :
    PrimaryInv (copyStep src dest st) := by
  intro a ha hs
  rcases copyStep_copies src dest st with hc | hc <;> rw [hc] at ha
  · exact h a ha hs
  · rcases List.mem_append.mp ha with ha | ha
    · exact h a ha hs
    · rw [List.mem_singleton.mp ha]

theorem sidecarStep_primaryInv (root fname dest_folder : String) (st : EngineSt)
    (h : PrimaryInv st) : PrimaryInv (sidecarStep root fname dest_folder st) := by
  intro a ha hs
  rcases sidecarStep_copies root fname dest_folder st with hc | ⟨rec, hrec, hc⟩ <;>
    rw [hc] at ha
  · exact h a ha hs
  · rcases List.mem_append.mp ha with ha | ha
    · exact h a ha hs
    · rw [List.mem_singleton.mp ha] at hs
      rw [hrec] at hs
      exact absurd hs (by simp)

theorem body_primaryInv (cfg : EngineCfg) (root fname : String) (st : EngineSt)
    (h : PrimaryInv st) : PrimaryInv (body cfg root fname st) := by
  simp only [body]
  split
  · exact h
  · have h' : PrimaryInv { st with
        processed := st.processed + 1, calls := st.calls ++ [(root, fname)] } := h
    split
    · exact h'
    · exact h'
    · simp only [okStep]
      split
      · exact sidecarStep_primaryInv _ _ _ _ (copyStep_primaryInv _ _ _ h')
      · exact copyStep_primaryInv _ _ _ h'

theorem fileStep_primaryInv (cfg : EngineCfg) (root fname : String) (st : EngineSt)
    (h : PrimaryInv st) : PrimaryInv (fileStep cfg root fname st).1 := by
  simp only [fileStep]
  split
  · split
    · exact h
    · exact body_primaryInv cfg root fname _ h
  · exact body_primaryInv cfg root fname st h

end CopyProcess

/-- Claim C1 (amended): the per-file primary copy never overwrites — in
every run, every copy the engine performs other than the companion-sidecar
copy was made onto a destination path that did not exist at that moment
(an existing destination is instead counted skipped with a skipped
event). -/
theorem primaryCopyNeverOverwrites (destDir : String) (useArchive : Bool)
    (allowed_formats : Option (List String)) (stopEvent : Option (Nat → Bool))
    (processor : String → CopyProcess.ProcReturn)
    (walk : List (String × List String)) (fs0 : List String) :
    ∀ a ∈ (CopyProcess.copy_files destDir useArchive allowed_formats stopEvent
        processor walk fs0).copies,
      a.sidecar = false → a.existedBefore = false := by
  exact CopyProcess.runWalk_preserve _ CopyProcess.PrimaryInv
    (fun root f st h => CopyProcess.fileStep_primaryInv _ root f st h)
    walk (CopyProcess.initSt fs0) (fun a ha => absurd ha (List.not_mem_nil a))

/-- Claim C1 (amended) witness: in the concrete overwrite run, the primary
video copy record is a non-sidecar record, so the theorem yields that its
destination did not previously exist. -/
theorem primaryCopyNeverOverwrites_witness :
    (CopyProcess.CopyAct.mk "s/v.mp4" "d/2024/2024-03-05-Paris/Videos/v.mp4"
        false false).existedBefore = false :=
  primaryCopyNeverOverwrites "d" false none none
    (fun _ => CopyProcess.ProcReturn.ok ⟨2024, 3, 5⟩ "Paris" true)
    [("s", ["v.mp4"])]
    ["s/v.mp4", "s/v.srt", "d/2024/2024-03-05-Paris/Videos/v.srt"]
    (CopyProcess.CopyAct.mk "s/v.mp4" "d/2024/2024-03-05-Paris/Videos/v.mp4" false false)
    (by decide) rfl

namespace CopyProcess

/-- The copy steps do not touch the processed counter or the call
record. -/
theorem copyStep_processed_calls (src dest : String) (st : EngineSt) :
    (copyStep src dest st).processed = st.processed ∧
    (copyStep src dest st).calls = st.calls := by
  simp only [copyStep]; split <;> exact ⟨rfl, rfl⟩

theorem sidecarStep_processed_calls (root fname dest_folder : String) (st : EngineSt) :
    (sidecarStep root fname dest_folder st).processed = st.processed ∧
    (sidecarStep root fname dest_folder st).calls = st.calls := by
  simp only [sidecarStep]; split <;> exact ⟨rfl, rfl⟩

theorem okStep_processed_calls (cfg : EngineCfg) (root fname ext : String)
    (file_dt : Date) (city : String) (location_found : Bool) (st : EngineSt) :
    (okStep cfg root fname ext file_dt city location_found st).processed = st.processed ∧
    (okStep cfg root fname ext file_dt city location_found st).calls = st.calls := by
  simp only [okStep]; split
  · rw [(sidecarStep_processed_calls _ _ _ _).1, (sidecarStep_processed_calls _ _ _ _).2,
      (copyStep_processed_calls _ _ _).1, (copyStep_processed_calls _ _ _).2]
    exact ⟨rfl, rfl⟩
  · exact copyStep_processed_calls _ _ _

/-- The loop body counts and records exactly the files that pass the
extension filter. -/
theorem body_processed_calls (cfg : EngineCfg) (root fname : String) (st : EngineSt) :
    (body cfg root fname st).processed =
      st.processed + (if skipFilter cfg.allowed (extOf fname) then 0 else 1) ∧
    (body cfg root fname st).calls =
      st.calls ++ (if skipFilter cfg.allowed (extOf fname) then [] else [(root, fname)]) := by
  simp only [body]
  by_cases hskip : skipFilter cfg.allowed (extOf fname)
  · simp [hskip]
  · simp only [hskip, if_neg, Bool.false_eq_true, if_false]
    split
    · simp
    · simp
    · rename_i file_dt city location_found heq
      have h := okStep_processed_calls cfg root fname (extOf fname) file_dt city
        location_found
        { st with processed := st.processed + 1, calls := st.calls ++ [(root, fname)] }
      rw [h.1, h.2]
      exact ⟨rfl, rfl⟩

/-- With no stop event the per-file step is exactly the body and never
breaks. -/
theorem fileStep_none (cfg : EngineCfg) (h : cfg.stopEvent = none)
    (root fname : String) (st : EngineSt) :
    fileStep cfg root fname st = (body cfg root fname st, false) := by
  simp [fileStep, h]

/-- With no stop event, the inner loop's processed counter and call record
accumulate exactly the non-filtered files, and the loop never breaks. -/
theorem runFiles_none (cfg : EngineCfg) (h : cfg.stopEvent = none) (root : String) :
    ∀ (files : List String) (st : EngineSt),
      (runFiles cfg root files st).1.processed =
        st.processed + files.countP (fun f => !skipFilter cfg.allowed (extOf f)) ∧
      (runFiles cfg root files st).1.calls =
        st.calls ++ (files.filter (fun f => !skipFilter cfg.allowed (extOf f))).map
          (fun f => (root, f)) ∧
      (runFiles cfg root files st).2 = false := by
  intro files
  induction files with
  | nil => intro st; exact ⟨by simp [runFiles], by simp [runFiles], rfl⟩
  | cons f rest ih =>
    intro st
    have hb := body_processed_calls cfg root f st
    have hstep : runFiles cfg root (f :: rest) st = runFiles cfg root rest (body cfg root f st) := by
      simp [runFiles, fileStep_none cfg h root f st]
    rw [hstep]
    have ih' := ih (body cfg root f st)
    by_cases hskip : skipFilter cfg.allowed (extOf f)
    · refine ⟨?_, ?_, ih'.2.2⟩
      · rw [ih'.1, hb.1, List.countP_cons]
        simp [hskip]
      · rw [ih'.2.1, hb.2, List.filter_cons]
        simp [hskip]
    · refine ⟨?_, ?_, ih'.2.2⟩
      · rw [ih'.1, hb.1, List.countP_cons]
        simp [hskip]
        omega
      · rw [ih'.2.1, hb.2, List.filter_cons]
        simp [hskip]

/-- With no stop event, the whole walk's processed counter and call record
accumulate exactly the non-filtered files of every directory. -/
theorem runWalk_none (cfg : EngineCfg) (h : cfg.stopEvent = none) :
    ∀ (walk : List (String × List String)) (st : EngineSt),
      (runWalk cfg walk st).processed =
        st.processed +
          (walk.map (fun d => d.2.countP (fun f => !skipFilter cfg.allowed (extOf f)))).sum ∧
      (runWalk cfg walk st).calls =
        st.calls ++ walk.flatMap
          (fun d => (d.2.filter (fun f => !skipFilter cfg.allowed (extOf f))).map
            (fun f => (d.1, f))) := by
  intro walk
  induction walk with
  | nil => intro st; exact ⟨by simp [runWalk], by simp [runWalk]⟩
  | cons d rest ih =>
    intro st
    have hf := runFiles_none cfg h d.1 d.2 st
    simp only [runWalk, hf.2.2, if_false, Bool.false_eq_true]
    have ih' := ih (runFiles cfg d.1 d.2 st).1
    refine ⟨?_, ?_⟩
    · rw [ih'.1, hf.1, List.map_cons, List.sum_cons]
      omega
    · rw [ih'.2, hf.2.1, List.flatMap_cons, List.append_assoc]

end CopyProcess

/-- Claim C2 (amended): files with the video-sidecar extension always pass
the engine's extension filter (the filter explicitly exempts ".srt") and
are processed as independent candidates — in a stop-free run the processed
counter counts exactly the filter-passing files of the walk, and the
process_file call record contains exactly those files, so every .srt file
both increments processed and is handed to metadata extraction. -/
theorem srtPassesFilterAndIsProcessed (destDir : String) (useArchive : Bool)
    (af : Option (List String)) (proc : String → CopyProcess.ProcReturn)
    (walk : List (String × List String)) (fs0 : List String) :
    (∀ (allowed : List String) (fname : String), extOf fname = ".srt" →
      CopyProcess.skipFilter allowed (extOf fname) = false) ∧
    (CopyProcess.copy_files destDir useArchive af none proc walk fs0).processed =
      (walk.map (fun d => d.2.countP
        (fun f => !CopyProcess.skipFilter (CopyProcess.resolveAllowed af) (extOf f)))).sum ∧
    (CopyProcess.copy_files destDir useArchive af none proc walk fs0).calls =
      walk.flatMap (fun d =>
        (d.2.filter
          (fun f => !CopyProcess.skipFilter (CopyProcess.resolveAllowed af) (extOf f))).map
          (fun f => (d.1, f))) := by
  refine ⟨?_, ?_, ?_⟩
  · intro allowed fname h
    rw [h]
    simp [CopyProcess.skipFilter]
  · have h := CopyProcess.runWalk_none
      ⟨destDir, useArchive, CopyProcess.resolveAllowed af, none, proc⟩ rfl walk
      (CopyProcess.initSt fs0)
    simpa [CopyProcess.copy_files, CopyProcess.initSt] using h.1
  · have h := CopyProcess.runWalk_none
      ⟨destDir, useArchive, CopyProcess.resolveAllowed af, none, proc⟩ rfl walk
      (CopyProcess.initSt fs0)
    simpa [CopyProcess.copy_files, CopyProcess.initSt] using h.2

/-- Claim C2 (amended) witness: the filter lets "a.srt" through even
against an allowed list that excludes it, and the concrete single-.srt run
counts it as processed and calls process_file on it. -/
theorem srtPassesFilterAndIsProcessed_witness :
    CopyProcess.skipFilter [".jpg"] (extOf "a.srt") = false ∧
    (CopyProcess.copy_files "d" false (some [".jpg"]) none
      (fun _ => CopyProcess.ProcReturn.ok ⟨2024, 1, 1⟩ "" false)
      [("s", ["a.srt"])] ["s/a.srt"]).processed =
      ([("s", ["a.srt"])].map (fun d => d.2.countP
        (fun f => !CopyProcess.skipFilter
          (CopyProcess.resolveAllowed (some [".jpg"])) (extOf f)))).sum :=
  ⟨(srtPassesFilterAndIsProcessed "d" false (some [".jpg"])
      (fun _ => CopyProcess.ProcReturn.ok ⟨2024, 1, 1⟩ "" false)
      [("s", ["a.srt"])] ["s/a.srt"]).1 [".jpg"] "a.srt" (by decide),
   (srtPassesFilterAndIsProcessed "d" false (some [".jpg"])
      (fun _ => CopyProcess.ProcReturn.ok ⟨2024, 1, 1⟩ "" false)
      [("s", ["a.srt"])] ["s/a.srt"]).2.1⟩

namespace CopyProcess

/-- With a stop signal that answers true, the whole walk reduces to the
single stop observation at the first file reached: the state gains only
the stopped flag, one poll, and the stopped event. -/
theorem runWalk_stop_preset (cfg : EngineCfg) (sig : Nat → Bool)
    (h : cfg.stopEvent = some sig) (hsig : ∀ k, sig k = true) :
    ∀ (walk : List (String × List String)) (st : EngineSt),
      (∃ d ∈ walk, d.2 ≠ []) →
      runWalk cfg walk st =
        { st with stopped := true, checkIdx := st.checkIdx + 1,
                  events := st.events ++ [PEvent.stopped] } := by
  intro walk
  induction walk with
  | nil => intro st hex; exact absurd hex (by simp)
  | cons d rest ih =>
    intro st hex
    rcases d with ⟨root, files⟩
    cases files with
    | nil =>
      have hrest : ∃ d ∈ rest, d.2 ≠ [] := by
        rcases hex with ⟨d', hd', hne⟩
        rcases List.mem_cons.mp hd' with h' | h'
        · rw [h'] at hne; exact absurd rfl hne
        · exact ⟨d', h', hne⟩
      simp only [runWalk, runFiles]
      exact ih st hrest
    | cons f fs =>
      simp only [runWalk, runFiles, fileStep, h, hsig st.checkIdx]
      simp

/-- The primary copy never sets the stopped flag and emits no stopped
event. -/
theorem copyStep_events_stopped (src dest : String) (st : EngineSt) :
    (copyStep src dest st).stopped = st.stopped ∧
    ∃ l, (copyStep src dest st).events = st.events ++ l ∧ PEvent.stopped ∉ l := by
  simp only [copyStep]; split
  · exact ⟨rfl, [PEvent.copied src dest], rfl, by simp⟩
  · exact ⟨rfl, [PEvent.skipped src dest], rfl, by simp⟩

/-- The sidecar copy never sets the stopped flag and emits no stopped
event. -/
theorem sidecarStep_events_stopped (root fname dest_folder : String) (st : EngineSt) :
    (sidecarStep root fname dest_folder st).stopped = st.stopped ∧
    ∃ l, (sidecarStep root fname dest_folder st).events = st.events ++ l ∧
      PEvent.stopped ∉ l := by
  simp only [sidecarStep]; split
  · exact ⟨rfl, [PEvent.copied (pjoin root (splitextStem fname ++ ".srt")) dest_folder],
      rfl, by simp⟩
  · exact ⟨rfl, [], by simp, by simp⟩

/-- The whole loop body never sets the stopped flag and emits no stopped
event. -/
theorem body_events_stopped (cfg : EngineCfg) (root fname : String) (st : EngineSt) :
    (body cfg root fname st).stopped = st.stopped ∧
    ∃ l, (body cfg root fname st).events = st.events ++ l ∧ PEvent.stopped ∉ l := by
  simp only [body]
  split
  · exact ⟨rfl, [], by simp, by simp⟩
  · split
    · exact ⟨rfl, [PEvent.error (pjoin root fname) _], rfl, by simp⟩
    · exact ⟨rfl, [PEvent.error (pjoin root fname)
        "ValueError: not enough values to unpack"], rfl, by simp⟩
    · rename_i file_dt city location_found heq
      simp only [okStep]
      split
      · have hc := copyStep_events_stopped (pjoin root fname)
          (pjoin (destFolderOf cfg (extOf fname) file_dt city location_found) fname)
          { st with processed := st.processed + 1, calls := st.calls ++ [(root, fname)] }
        have hs := sidecarStep_events_stopped root fname
          (destFolderOf cfg (extOf fname) file_dt city location_found)
          (copyStep (pjoin root fname)
            (pjoin (destFolderOf cfg (extOf fname) file_dt city location_found) fname)
            { st with processed := st.processed + 1, calls := st.calls ++ [(root, fname)] })
        rcases hc.2 with ⟨l1, hl1, hnl1⟩
        rcases hs.2 with ⟨l2, hl2, hnl2⟩
        refine ⟨by rw [hs.1, hc.1], l1 ++ l2, ?_, ?_⟩
        · rw [hl2, hl1, List.append_assoc]
        · simp only [List.mem_append]
          rintro (h | h)
          · exact hnl1 h
          · exact hnl2 h
      · have hc := copyStep_events_stopped (pjoin root fname)
          (pjoin (destFolderOf cfg (extOf fname) file_dt city location_found) fname)
          { st with processed := st.processed + 1, calls := st.calls ++ [(root, fname)] }
        rcases hc.2 with ⟨l1, hl1, hnl1⟩
        exact ⟨hc.1, l1, hl1, hnl1⟩

/-- The no-stop-yet invariant over the run state. -/
def StopInv (st : EngineSt) : Prop :=
  PEvent.stopped ∉ st.events ∧ st.stopped = false

/-- The inner loop either never observes the stop signal (and the
invariant survives) or it breaks, in which case the stopped event it just
emitted is the very last event and the stopped flag is set. -/
theorem runFiles_stop_inv (cfg : EngineCfg) (root : String) :
    ∀ (files : List String) (st : EngineSt), StopInv st →
      ((runFiles cfg root files st).2 = false → StopInv (runFiles cfg root files st).1) ∧
      ((runFiles cfg root files st).2 = true →
        ∃ pre, (runFiles cfg root files st).1.events = pre ++ [PEvent.stopped] ∧
          (runFiles cfg root files st).1.stopped = true) := by
  intro files
  induction files with
  | nil =>
    intro st h
    exact ⟨fun _ => h, fun hb => absurd hb (by simp [runFiles])⟩
  | cons f rest ih =>
    intro st h
    simp only [runFiles]
    rcases hstep : fileStep cfg root f st with ⟨st', broke⟩
    cases broke with
    | true =>
      simp only [if_true]
      have hpair : st'.events = st.events ++ [PEvent.stopped] ∧ st'.stopped = true := by
        simp only [fileStep] at hstep
        split at hstep
        · split at hstep
          · rw [Prod.mk.injEq] at hstep
            rw [← hstep.1]; exact ⟨rfl, rfl⟩
          · rw [Prod.mk.injEq] at hstep
            exact absurd hstep.2 (by simp)
        · rw [Prod.mk.injEq] at hstep
          exact absurd hstep.2 (by simp)
      exact ⟨fun hb => absurd hb (by simp), fun _ => ⟨st.events, hpair.1, hpair.2⟩⟩
    | false =>
      simp only [if_false, Bool.false_eq_true]
      have hst2 : StopInv st' := by
        simp only [fileStep] at hstep
        split at hstep
        · split at hstep
          · rw [Prod.mk.injEq] at hstep
            exact absurd hstep.2 (by simp)
          · rw [Prod.mk.injEq] at hstep
            rcases (body_events_stopped cfg root f
              { st with checkIdx := st.checkIdx + 1 }).2 with ⟨l, hl, hnl⟩
            have hstp := (body_events_stopped cfg root f
              { st with checkIdx := st.checkIdx + 1 }).1
            constructor
            · rw [← hstep.1, hl]
              simp only [List.mem_append]
              rintro (hh | hh)
              · exact h.1 hh
              · exact hnl hh
            · rw [← hstep.1, hstp]; exact h.2
        · rw [Prod.mk.injEq] at hstep
          rcases (body_events_stopped cfg root f st).2 with ⟨l, hl, hnl⟩
          have hstp := (body_events_stopped cfg root f st).1
          constructor
          · rw [← hstep.1, hl]
            simp only [List.mem_append]
            rintro (hh | hh)
            · exact h.1 hh
            · exact hnl hh
          · rw [← hstep.1, hstp]; exact h.2
      exact ih st' hst2

/-- The whole walk either finishes with the invariant intact or ends right
at a stopped event with the stopped flag set. -/
theorem runWalk_stop_inv (cfg : EngineCfg) :
    ∀ (walk : List (String × List String)) (st : EngineSt), StopInv st →
      StopInv (runWalk cfg walk st) ∨
      (∃ pre, (runWalk cfg walk st).events = pre ++ [PEvent.stopped] ∧
        (runWalk cfg walk st).stopped = true) := by
  intro walk
  induction walk with
  | nil => intro st h; exact Or.inl h
  | cons d rest ih =>
    intro st h
    simp only [runWalk]
    rcases hr : runFiles cfg d.1 d.2 st with ⟨st', broke⟩
    have hinv := runFiles_stop_inv cfg d.1 d.2 st h
    rw [hr] at hinv
    cases broke with
    | true =>
      simp only [if_true]
      exact Or.inr (hinv.2 rfl)
    | false =>
      simp only [if_false, Bool.false_eq_true]
      exact ih st' (hinv.1 rfl)

end CopyProcess

/-- Claim C8: with the stop signal already set before the first file is
reached, the run terminates at once with processed = 0, the stopped flag
set, no copies, and the stopped event as its only emission; and in every
run whatsoever, once the stop signal is observed (a stopped event emitted)
nothing further happens — the stopped event is the last event of the run
and the result carries stopped = true. -/
theorem stopSignalSemantics (destDir : String) (useArchive : Bool)
    (af : Option (List String)) (proc : String → CopyProcess.ProcReturn)
    (walk : List (String × List String)) (fs0 : List String) :
    (∀ sig : Nat → Bool, (∀ k, sig k = true) → (∃ d ∈ walk, d.2 ≠ []) →
      CopyProcess.copy_files destDir useArchive af (some sig) proc walk fs0 =
        { processed := 0, copied := 0, skipped := 0, errors := 0, stopped := true,
          checkIdx := 1, fs := fs0, events := [CopyProcess.PEvent.stopped],
          calls := [], copies := [] }) ∧
    (∀ se : Option (Nat → Bool),
      CopyProcess.PEvent.stopped ∈
        (CopyProcess.copy_files destDir useArchive af se proc walk fs0).events →
      (CopyProcess.copy_files destDir useArchive af se proc walk fs0).events.getLast? =
        some CopyProcess.PEvent.stopped ∧
      (CopyProcess.copy_files destDir useArchive af se proc walk fs0).stopped = true) := by
  constructor
  · intro sig hsig hex
    have h := CopyProcess.runWalk_stop_preset
      ⟨destDir, useArchive, CopyProcess.resolveAllowed af, some sig, proc⟩ sig rfl hsig
      walk (CopyProcess.initSt fs0) hex
    simpa [CopyProcess.copy_files, CopyProcess.initSt] using h
  · intro se hmem
    simp only [CopyProcess.copy_files] at hmem ⊢
    have h := CopyProcess.runWalk_stop_inv
      ⟨destDir, useArchive, CopyProcess.resolveAllowed af, se, proc⟩
      walk (CopyProcess.initSt fs0) ⟨by simp [CopyProcess.initSt], rfl⟩
    rcases h with h | ⟨pre, hev, hstop⟩
    · exact absurd hmem h.1
    · exact ⟨by rw [hev]; exact List.getLast?_concat pre, hstop⟩

/-- Claim C8 witness: a concrete one-file run with the stop signal pre-set
has the predicted final state, and its stopped event is the last (and
only) event. -/
theorem stopSignalSemantics_witness :
    CopyProcess.copy_files "d" false none (some (fun _ => true))
      (fun _ => CopyProcess.ProcReturn.ok ⟨2024, 1, 1⟩ "" false)
      [("s", ["a.jpg"])] ["s/a.jpg"] =
      { processed := 0, copied := 0, skipped := 0, errors := 0, stopped := true,
        checkIdx := 1, fs := ["s/a.jpg"], events := [CopyProcess.PEvent.stopped],
        calls := [], copies := [] } ∧
    (CopyProcess.copy_files "d" false none (some (fun _ => true))
      (fun _ => CopyProcess.ProcReturn.ok ⟨2024, 1, 1⟩ "" false)
      [("s", ["a.jpg"])] ["s/a.jpg"]).events.getLast? =
      some CopyProcess.PEvent.stopped :=
  ⟨(stopSignalSemantics "d" false none
      (fun _ => CopyProcess.ProcReturn.ok ⟨2024, 1, 1⟩ "" false)
      [("s", ["a.jpg"])] ["s/a.jpg"]).1 (fun _ => true) (fun _ => rfl)
      ⟨("s", ["a.jpg"]), by simp, by simp⟩,
   ((stopSignalSemantics "d" false none
      (fun _ => CopyProcess.ProcReturn.ok ⟨2024, 1, 1⟩ "" false)
      [("s", ["a.jpg"])] ["s/a.jpg"]).2 (some (fun _ => true)) (by decide)).1⟩

/-- takeWhile runs through a prefix whose elements all satisfy the
predicate. -/
theorem takeWhile_append_all {α : Type} (p : α → Bool) (l1 l2 : List α)
    (h : ∀ x ∈ l1, p x = true) :
    (l1 ++ l2).takeWhile p = l1 ++ l2.takeWhile p := by
  induction l1 with
  | nil => simp
  | cons a t ih =>
    have hpa := h a (by simp)
    simp only [List.cons_append, List.takeWhile_cons, hpa, if_true]
    rw [ih (fun x hx => h x (by simp [hx]))]

/-- For a separator-free file name, os.path.basename undoes os.path.join:
basename(root + "/" + fname) = fname. -/
theorem basename_pjoin (root fname : String) (h : '/' ∉ fname.data) :
    basename (pjoin root fname) = fname := by
  unfold basename pjoin
  have hdata : (root ++ "/" ++ fname).data = root.data ++ '/' :: fname.data := by
    rw [String.data_append, String.data_append]
    rw [List.append_assoc]
    rfl
  rw [hdata, List.reverse_append, List.reverse_cons, List.append_assoc]
  have hall : ∀ x ∈ fname.data.reverse, (fun c => decide (c ≠ '/')) x = true := by
    intro x hx
    have : x ∈ fname.data := List.mem_reverse.mp hx
    simp only [decide_eq_true_eq]
    intro heq
    exact h (heq ▸ this)
  rw [takeWhile_append_all _ fname.data.reverse _ hall]
  have : (['/'] ++ root.data.reverse).takeWhile (fun c => decide (c ≠ '/')) = [] := by
    simp [List.takeWhile_cons]
  rw [this, List.append_nil, List.reverse_reverse]

namespace CopyProcess

/-- The calls invariant: every recorded process_file invocation is for a
file whose extension already passed the engine's filter. -/
def CallsInv (cfg : EngineCfg) (st : EngineSt) : Prop :=
  ∀ c ∈ st.calls, skipFilter cfg.allowed (extOf c.2) = false

theorem body_callsInv (cfg : EngineCfg) (root fname : String) (st : EngineSt)
    (h : CallsInv cfg st) : CallsInv cfg (body cfg root fname st) := by
  simp only [body]
  by_cases hskip : skipFilter cfg.allowed (extOf fname)
  · simpa [hskip] using h
  · have hskip' : skipFilter cfg.allowed (extOf fname) = false := by
      revert hskip; cases skipFilter cfg.allowed (extOf fname) <;> simp
    simp only [hskip', Bool.false_eq_true, if_false]
    have hgrow : CallsInv cfg
        { st with processed := st.processed + 1, calls := st.calls ++ [(root, fname)] } := by
      intro c hc
      rcases List.mem_append.mp hc with hc | hc
      · exact h c hc
      · rw [List.mem_singleton.mp hc]
        exact hskip'
    split
    · exact hgrow
    · exact hgrow
    · rename_i file_dt city location_found heq
      intro c hc
      rw [(okStep_processed_calls cfg root fname (extOf fname) file_dt city location_found
        _).2] at hc
      exact hgrow c hc

theorem fileStep_callsInv (cfg : EngineCfg) (root fname : String) (st : EngineSt)
    (h : CallsInv cfg st) : CallsInv cfg (fileStep cfg root fname st).1 := by
  simp only [fileStep]
  split
  · split
    · exact h
    · exact body_callsInv cfg root fname _ h
  · exact body_callsInv cfg root fname st h

end CopyProcess

/-- A file whose extension passes the engine's filter never reaches
process_file's filtered 2-tuple branch: the result is always of the
declared 3-tuple shape. -/
theorem process_file_full_of_not_skipped (env : GeoEnv) (fm : FileMeta)
    (root fname : String) (ua : Bool) (allowed : List String)
    (hsep : '/' ∉ fname.data)
    (hskip : CopyProcess.skipFilter allowed (extOf fname) = false) :
    ∃ dt city found,
      FileProcessor.process_file env fm (pjoin root fname) ua allowed =
        ProcOut.full dt city found := by
  unfold FileProcessor.process_file
  rw [basename_pjoin root fname hsep]
  rw [if_neg ?hc]
  case hc =>
    rintro ⟨h1, h2, h3⟩
    exact (of_decide_eq_false hskip) ⟨h1, h2, by simpa using h3⟩
  exact ⟨_, _, _, rfl⟩

/-- Claim C10: under the composed system, the engine invokes process_file
only for files whose extension already satisfies the identical filter (in
the allowed set or equal to ".srt"), and for every such invocation
process_file returns the declared 3-tuple, so the engine's three-way
unpacking never fails: the filtered 2-tuple branch is unreachable from the
engine. -/
theorem filteredBranchUnreachable (env : GeoEnv) (fmOf : String → FileMeta)
    (destDir : String) (ua : Bool) (af : Option (List String))
    (se : Option (Nat → Bool)) (walk : List (String × List String))
    (fs0 : List String) :
    ∀ rf ∈ (CopyProcess.copy_files destDir ua af se
        (CopyProcess.procOf env fmOf ua (CopyProcess.resolveAllowed af)) walk fs0).calls,
      '/' ∉ rf.2.data →
      CopyProcess.skipFilter (CopyProcess.resolveAllowed af) (extOf rf.2) = false ∧
      ∃ dt city found,
        FileProcessor.process_file env (fmOf (pjoin rf.1 rf.2)) (pjoin rf.1 rf.2) ua
          (CopyProcess.resolveAllowed af) = ProcOut.full dt city found := by
  intro rf hrf hsep
  have hinv := CopyProcess.runWalk_preserve
    ⟨destDir, ua, CopyProcess.resolveAllowed af, se,
      CopyProcess.procOf env fmOf ua (CopyProcess.resolveAllowed af)⟩
    (CopyProcess.CallsInv _)
    (fun root f st h => CopyProcess.fileStep_callsInv _ root f st h)
    walk (CopyProcess.initSt fs0) (fun c hc => absurd hc (List.not_mem_nil c))
  have hskip := hinv rf hrf
  exact ⟨hskip,
    process_file_full_of_not_skipped env (fmOf (pjoin rf.1 rf.2)) rf.1 rf.2 ua
      (CopyProcess.resolveAllowed af) hsep hskip⟩

/-- Claim C10 witness: the composed single-photo run records exactly one
process_file call, and for it the filter is passed and the result is the
3-tuple shape. -/
theorem filteredBranchUnreachable_witness :
    CopyProcess.skipFilter (CopyProcess.resolveAllowed none) (extOf "a.jpg") = false ∧
    ∃ dt city found,
      FileProcessor.process_file
        ⟨fun _ => "X", fun _ _ => [], fun _ => "Paris", []⟩
        ⟨0, ⟨2024, 1, 1⟩, none, none, false, none⟩ (pjoin "s" "a.jpg") false
        (CopyProcess.resolveAllowed none) = ProcOut.full dt city found :=
  filteredBranchUnreachable
    ⟨fun _ => "X", fun _ _ => [], fun _ => "Paris", []⟩
    (fun _ => ⟨0, ⟨2024, 1, 1⟩, none, none, false, none⟩)
    "d" false none none [("s", ["a.jpg"])] ["s/a.jpg"]
    ("s", "a.jpg") (by decide) (by decide)
